import Mathlib

/-
Verification of the ArrayList dynamic-array container (src/ArrayList.c,
src/ArrayList.h) against its specification.

Shallow embedding: the struct `ArrayList` from ArrayList.h becomes a Lean
structure whose backing buffer is a `List (Option α)` — a cell holding
`none` models a NULL `void *` slot, a cell holding `some a` models a
non-null element handle.  `size_t` values become `Nat`.  Each C function
is translated line by line; functions that can report an error return the
resulting state paired with an `Option Err` (for the fatal THROW_ERROR
paths the paired state is the memory state at the moment the process
exits, which the C code has not mutated).
-/

namespace ArrayListC

/-- Error conditions surfaced by ArrayList.c: `IndexOutOfRange` is the
fatal THROW_ERROR in `insert_at` / `remove_at`; `EmptyContainer` is the
non-fatal stderr report in `pop_back`. -/
inductive Err where
  | IndexOutOfRange : Err
  | EmptyContainer : Err
deriving DecidableEq, Repr

/-- The `ArrayList` struct from ArrayList.h: `arr` is the backing buffer of
element handles, `n` the number of live elements, `length` the capacity.
The C code allocates the buffer with `length + 1` slots (one extra slot for
the NULL terminator). -/
structure ArrayList (α : Type) where
  arr : List (Option α)
  n : Nat
  length : Nat
deriving DecidableEq, Repr

/-- Reallocation of the backing buffer to exactly `newLen` slots
(`realloc` in the C code): the prefix shared with the old buffer is
preserved; fresh slots beyond the old buffer are modelled as `none`
(the C code never reads a fresh slot before writing it). -/
def reallocBuf {α : Type} (arr : List (Option α)) (newLen : Nat) : List (Option α) :=
  (List.range newLen).map fun i => arr.getD i none

/-- The function `init` from ArrayList.c: calloc `length + 1` zeroed
slots, `n = 0`, capacity `length`.  (The explicit `arr[0] = NULL` in the
source is already implied by the zeroing done by calloc.) -/
def init (α : Type) (length : Nat) : ArrayList α :=
  { arr := List.replicate (length + 1) none, n := 0, length := length }

/-- The function `resize` from ArrayList.c: no-op when `size <= n`,
otherwise realloc to `size + 1` slots and set the capacity to `size`. -/
def resize {α : Type} (list : ArrayList α) (size : Nat) : ArrayList α :=
  if size ≤ list.n then list
  else { arr := reallocBuf list.arr (size + 1), n := list.n, length := size }

/-- The growth step `if (list->n == list->length) resize(list, list->length * 2 + 1);`
that both `push_back` and `insert_at` perform before storing. -/
def growIfFull {α : Type} (list : ArrayList α) : ArrayList α :=
  if list.n = list.length then resize list (list.length * 2 + 1) else list

/-- The function `push_back` from ArrayList.c: grow via
`resize(list, list->length * 2 + 1)` when full, then
`arr[n] = element; n++; arr[n] = NULL`. -/
def push_back {α : Type} (list : ArrayList α) (element : Option α) : ArrayList α :=
  let l := growIfFull list
  { arr := (l.arr.set l.n element).set (l.n + 1) none,
    n := l.n + 1, length := l.length }

/-- The function `pop_back` from ArrayList.c: on an empty list it prints
an error and returns leaving the list untouched (non-fatal); otherwise
`n--; arr[n] = NULL`. -/
def pop_back {α : Type} (list : ArrayList α) : ArrayList α × Option Err :=
  if list.n = 0 then (list, some Err.EmptyContainer)
  else ({ arr := list.arr.set (list.n - 1) none, n := list.n - 1, length := list.length },
        none)

/-- The function `shrink_to_fit` from ArrayList.c: no-op when
`n == length`, otherwise realloc to `n + 1` slots and set the capacity
to `n`. -/
def shrink_to_fit {α : Type} (list : ArrayList α) : ArrayList α :=
  if list.n = list.length then list
  else { arr := reallocBuf list.arr (list.n + 1), n := list.n, length := list.n }

/-- The function `get_length` from ArrayList.c: returns the capacity. -/
def get_length {α : Type} (list : ArrayList α) : Nat :=
  list.length

/-- The function `get_number_of_elements` from ArrayList.c: returns the
live element count. -/
def get_number_of_elements {α : Type} (list : ArrayList α) : Nat :=
  list.n

/-- The `memmove(&arr[index + 1], &arr[index], (n - index) * sizeof(void *))`
in `insert_at`: cells `index + 1 .. n` of the result hold the old cells
`index .. n - 1`; every other cell is unchanged. -/
def shiftRight {α : Type} (arr : List (Option α)) (index n : Nat) : List (Option α) :=
  (List.range arr.length).map fun i =>
    if index + 1 ≤ i ∧ i ≤ n then arr.getD (i - 1) none else arr.getD i none

/-- The function `insert_at` from ArrayList.c: fatal `IndexOutOfRange`
when `index > n`; otherwise grow when full (same policy as `push_back`),
memmove the tail one slot right, write the element at `index`, then
`n++; arr[n] = NULL`. -/
def insert_at {α : Type} (list : ArrayList α) (element : Option α) (index : Nat) :
    ArrayList α × Option Err :=
  if index > list.n then (list, some Err.IndexOutOfRange)
  else
    let l := growIfFull list
    ({ arr := ((shiftRight l.arr index l.n).set index element).set (l.n + 1) none,
       n := l.n + 1, length := l.length }, none)

/-- The loop `for (i = index; i < n - 1; i++) arr[i] = arr[i + 1]` in
`remove_at`: cells `index .. n - 2` of the result hold the old cells
`index + 1 .. n - 1`; every other cell is unchanged. -/
def shiftLeft {α : Type} (arr : List (Option α)) (index n : Nat) : List (Option α) :=
  (List.range arr.length).map fun i =>
    if index ≤ i ∧ i + 1 < n then arr.getD (i + 1) none else arr.getD i none

/-- The function `remove_at` from ArrayList.c: fatal `IndexOutOfRange`
when `index >= n`; otherwise shift the tail one slot left, then
`n--; arr[n] = NULL`. -/
def remove_at {α : Type} (list : ArrayList α) (index : Nat) : ArrayList α × Option Err :=
  if index ≥ list.n then (list, some Err.IndexOutOfRange)
  else ({ arr := (shiftLeft list.arr index list.n).set (list.n - 1) none,
          n := list.n - 1, length := list.length }, none)

/-- The loop of `find` from ArrayList.c, scanning indices `i, i+1, ...`
below `n` and returning the first index whose cell the comparator maps to
0 (as `ssize_t`), or -1 when the scan runs off the end. -/
def findLoop {α : Type} (arr : List (Option α)) (element : Option α)
    (cmp : Option α → Option α → Int) (n i : Nat) : Int :=
  if h : i < n then
    if cmp (arr.getD i none) element = 0 then (i : Int)
    else findLoop arr element cmp n (i + 1)
  else -1
termination_by n - i
decreasing_by omega

/-- The function `find` from ArrayList.c: linear scan of `[0, n)` with the
caller-supplied comparator; index of the first hit, -1 otherwise. -/
def find {α : Type} (list : ArrayList α) (element : Option α)
    (cmp : Option α → Option α → Int) : Int :=
  findLoop list.arr element cmp list.n 0

/-- One operation of the container API (the mutators; `init` is the start
state, the getters and `find` do not change the state). -/
inductive Op (α : Type) where
  | push_back : Option α → Op α
  | pop_back : Op α
  | insert_at : Option α → Nat → Op α
  | remove_at : Nat → Op α
  | resize : Nat → Op α
  | shrink_to_fit : Op α

/-- Apply one operation, returning the new state and the reported error
condition, if any. -/
def applyOp {α : Type} (list : ArrayList α) : Op α → ArrayList α × Option Err
  | Op.push_back x => (push_back list x, none)
  | Op.pop_back => pop_back list
  | Op.insert_at x i => insert_at list x i
  | Op.remove_at i => remove_at list i
  | Op.resize c => (resize list c, none)
  | Op.shrink_to_fit => (shrink_to_fit list, none)

/-- Whether an error condition terminates the process (THROW_ERROR) as
opposed to being logged and recovered from (`pop_back` on empty). -/
def isFatal : Err → Bool
  | Err.IndexOutOfRange => true
  | Err.EmptyContainer => false

/-- Run a sequence of operations from a state, stopping at the state in
which a fatal error is reported (the C process exits there). -/
def run {α : Type} (list : ArrayList α) : List (Op α) → ArrayList α
  | [] => list
  | op :: ops =>
      match applyOp list op with
      | (l, none) => run l ops
      | (l, some e) => if isFatal e then l else run l ops

/-- Well-formedness of a container state: the backing buffer holds exactly
`length + 1` slots, the count never exceeds the capacity, and the slot at
index `n` holds the NULL terminator. -/
def WF {α : Type} (list : ArrayList α) : Prop :=
  list.arr.length = list.length + 1 ∧ list.n ≤ list.length ∧
    list.arr.getD list.n none = none

/-- A small concrete container used to evaluate the theorems: capacity 2,
holding the handles `some 1` and `some 2` (so it is exactly full). -/
def sample2 : ArrayList Nat :=
  push_back (push_back (init Nat 2) (some 1)) (some 2)

/-- A concrete comparator in the style of the C demo: 0 on equal handles,
1 otherwise. -/
def cmpSome : Option Nat → Option Nat → Int :=
  fun a b => if a = b then 0 else 1

/-! ### Basic lemmas about buffer primitives -/

lemma getD_set_ne {β : Type} (l : List β) {i j : Nat} (x d : β) (h : i ≠ j) :
    (l.set i x).getD j d = l.getD j d := by
  simp [List.getD_eq_getElem?_getD, List.getElem?_set_ne h]

lemma getD_set_eq {β : Type} (l : List β) {i : Nat} (x d : β) (h : i < l.length) :
    (l.set i x).getD i d = x := by
  simp [List.getD_eq_getElem?_getD, List.getElem?_set_eq_of_lt x h]

lemma getD_range_map {β : Type} (f : Nat → β) {L j : Nat} (d : β) (h : j < L) :
    ((List.range L).map f).getD j d = f j := by
  simp [List.getD_eq_getElem?_getD, List.getElem?_map, List.getElem?_range h]

lemma getD_replicate_none {α : Type} (L j : Nat) :
    (List.replicate L (none : Option α)).getD j none = none := by
  by_cases h : j < L
  · simp [List.getD_eq_getElem?_getD, List.getElem?_replicate, h]
  · exact List.getD_eq_default _ _ (by simpa using by omega)

lemma length_reallocBuf {α : Type} (arr : List (Option α)) (L : Nat) :
    (reallocBuf arr L).length = L := by
  simp [reallocBuf]

lemma getD_reallocBuf {α : Type} (arr : List (Option α)) {L j : Nat} (h : j < L) :
    (reallocBuf arr L).getD j none = arr.getD j none := by
  unfold reallocBuf
  rw [getD_range_map _ _ h]

lemma length_shiftRight {α : Type} (arr : List (Option α)) (index n : Nat) :
    (shiftRight arr index n).length = arr.length := by
  simp [shiftRight]

lemma getD_shiftRight {α : Type} (arr : List (Option α)) (index n : Nat) {j : Nat}
    (hj : j < arr.length) :
    (shiftRight arr index n).getD j none =
      if index + 1 ≤ j ∧ j ≤ n then arr.getD (j - 1) none else arr.getD j none := by
  simp only [shiftRight]
  rw [getD_range_map _ _ hj]

lemma length_shiftLeft {α : Type} (arr : List (Option α)) (index n : Nat) :
    (shiftLeft arr index n).length = arr.length := by
  simp [shiftLeft]

lemma getD_shiftLeft {α : Type} (arr : List (Option α)) (index n : Nat) {j : Nat}
    (hj : j < arr.length) :
    (shiftLeft arr index n).getD j none =
      if index ≤ j ∧ j + 1 < n then arr.getD (j + 1) none else arr.getD j none := by
  simp only [shiftLeft]
  rw [getD_range_map _ _ hj]

/-! ### Branch equations for the operations -/

lemma resize_of_le {α : Type} {l : ArrayList α} {c : Nat} (h : c ≤ l.n) :
    resize l c = l := by
  unfold resize
  rw [if_pos h]

lemma resize_of_gt {α : Type} {l : ArrayList α} {c : Nat} (h : ¬ c ≤ l.n) :
    resize l c = { arr := reallocBuf l.arr (c + 1), n := l.n, length := c } := by
  unfold resize
  rw [if_neg h]

lemma growIfFull_of_full {α : Type} {l : ArrayList α} (h : l.n = l.length) :
    growIfFull l =
      { arr := reallocBuf l.arr (l.length * 2 + 1 + 1), n := l.n,
        length := l.length * 2 + 1 } := by
  unfold growIfFull
  rw [if_pos h, resize_of_gt (by omega)]

lemma growIfFull_of_free {α : Type} {l : ArrayList α} (h : ¬ l.n = l.length) :
    growIfFull l = l := by
  unfold growIfFull
  rw [if_neg h]

lemma push_back_eq {α : Type} (l : ArrayList α) (x : Option α) :
    push_back l x =
      { arr := ((growIfFull l).arr.set (growIfFull l).n x).set ((growIfFull l).n + 1) none,
        n := (growIfFull l).n + 1, length := (growIfFull l).length } :=
  rfl

lemma pop_back_of_zero {α : Type} {l : ArrayList α} (h : l.n = 0) :
    pop_back l = (l, some Err.EmptyContainer) := by
  unfold pop_back
  rw [if_pos h]

lemma pop_back_of_pos {α : Type} {l : ArrayList α} (h : ¬ l.n = 0) :
    pop_back l =
      ({ arr := l.arr.set (l.n - 1) none, n := l.n - 1, length := l.length }, none) := by
  unfold pop_back
  rw [if_neg h]

lemma shrink_to_fit_of_eq {α : Type} {l : ArrayList α} (h : l.n = l.length) :
    shrink_to_fit l = l := by
  unfold shrink_to_fit
  rw [if_pos h]

lemma shrink_to_fit_of_ne {α : Type} {l : ArrayList α} (h : ¬ l.n = l.length) :
    shrink_to_fit l =
      { arr := reallocBuf l.arr (l.n + 1), n := l.n, length := l.n } := by
  unfold shrink_to_fit
  rw [if_neg h]

lemma insert_at_of_gt {α : Type} {l : ArrayList α} {i : Nat} (x : Option α) (h : i > l.n) :
    insert_at l x i = (l, some Err.IndexOutOfRange) := by
  unfold insert_at
  rw [if_pos h]

lemma insert_at_of_le {α : Type} {l : ArrayList α} {i : Nat} (x : Option α) (h : ¬ i > l.n) :
    insert_at l x i =
      ({ arr := ((shiftRight (growIfFull l).arr i (growIfFull l).n).set i x).set
                  ((growIfFull l).n + 1) none,
         n := (growIfFull l).n + 1, length := (growIfFull l).length }, none) := by
  unfold insert_at
  rw [if_neg h]

lemma remove_at_of_ge {α : Type} {l : ArrayList α} {i : Nat} (h : i ≥ l.n) :
    remove_at l i = (l, some Err.IndexOutOfRange) := by
  unfold remove_at
  rw [if_pos h]

lemma remove_at_of_lt {α : Type} {l : ArrayList α} {i : Nat} (h : ¬ i ≥ l.n) :
    remove_at l i =
      ({ arr := (shiftLeft l.arr i l.n).set (l.n - 1) none, n := l.n - 1,
         length := l.length }, none) := by
  unfold remove_at
  rw [if_neg h]

/-! ### The growth step -/

lemma growIfFull_spec {α : Type} {l : ArrayList α}
    (hlen : l.arr.length = l.length + 1) (hn : l.n ≤ l.length) :
    (growIfFull l).n = l.n ∧
    l.n + 1 ≤ (growIfFull l).length ∧
    (growIfFull l).arr.length = (growIfFull l).length + 1 ∧
    (∀ j, j ≤ l.n → (growIfFull l).arr.getD j none = l.arr.getD j none) := by
  by_cases hf : l.n = l.length
  · rw [growIfFull_of_full hf]
    refine ⟨rfl, by show l.n + 1 ≤ l.length * 2 + 1; omega,
            by show (reallocBuf l.arr _).length = _; rw [length_reallocBuf], ?_⟩
    intro j hj
    show (reallocBuf l.arr (l.length * 2 + 1 + 1)).getD j none = l.arr.getD j none
    exact getD_reallocBuf _ (by omega)
  · rw [growIfFull_of_free hf]
    exact ⟨rfl, by omega, hlen, fun j _ => rfl⟩

/-! ### Preservation of well-formedness -/

lemma wf_init (α : Type) (s : Nat) : WF (init α s) := by
  refine ⟨by simp [init], by simp [init], ?_⟩
  simp [init, getD_replicate_none]

lemma wf_resize {α : Type} {l : ArrayList α} (h : WF l) (c : Nat) : WF (resize l c) := by
  obtain ⟨hlen, hn, hsent⟩ := h
  by_cases hc : c ≤ l.n
  · rw [resize_of_le hc]
    exact ⟨hlen, hn, hsent⟩
  · rw [resize_of_gt hc]
    refine ⟨by show (reallocBuf l.arr (c + 1)).length = c + 1; rw [length_reallocBuf],
            by show l.n ≤ c; omega, ?_⟩
    show (reallocBuf l.arr (c + 1)).getD l.n none = none
    rw [getD_reallocBuf _ (by omega)]
    exact hsent

lemma wf_push_back {α : Type} {l : ArrayList α} (h : WF l) (x : Option α) :
    WF (push_back l x) := by
  obtain ⟨hlen, hn, _⟩ := h
  obtain ⟨hgn, hgle, hglen, _⟩ := growIfFull_spec hlen hn
  rw [push_back_eq]
  refine ⟨?_, ?_, ?_⟩
  · show (((growIfFull l).arr.set _ x).set _ none).length = (growIfFull l).length + 1
    rw [List.length_set, List.length_set, hglen]
  · show (growIfFull l).n + 1 ≤ (growIfFull l).length
    omega
  · show (((growIfFull l).arr.set (growIfFull l).n x).set ((growIfFull l).n + 1) none).getD
      ((growIfFull l).n + 1) none = none
    exact getD_set_eq _ _ _ (by rw [List.length_set, hglen]; omega)

lemma wf_pop_back {α : Type} {l : ArrayList α} (h : WF l) : WF (pop_back l).1 := by
  obtain ⟨hlen, hn, hsent⟩ := h
  by_cases hz : l.n = 0
  · rw [pop_back_of_zero hz]
    exact ⟨hlen, hn, hsent⟩
  · rw [pop_back_of_pos hz]
    refine ⟨by show (l.arr.set _ none).length = l.length + 1; rw [List.length_set, hlen],
            by show l.n - 1 ≤ l.length; omega, ?_⟩
    show (l.arr.set (l.n - 1) none).getD (l.n - 1) none = none
    exact getD_set_eq _ _ _ (by omega)

lemma wf_insert_at {α : Type} {l : ArrayList α} (h : WF l) (x : Option α) (i : Nat) :
    WF (insert_at l x i).1 := by
  obtain ⟨hlen, hn, hsent⟩ := h
  by_cases hi : i > l.n
  · rw [insert_at_of_gt x hi]
    exact ⟨hlen, hn, hsent⟩
  · obtain ⟨hgn, hgle, hglen, _⟩ := growIfFull_spec hlen hn
    rw [insert_at_of_le x hi]
    refine ⟨?_, ?_, ?_⟩
    · show (((shiftRight (growIfFull l).arr i (growIfFull l).n).set i x).set _ none).length =
        (growIfFull l).length + 1
      rw [List.length_set, List.length_set, length_shiftRight, hglen]
    · show (growIfFull l).n + 1 ≤ (growIfFull l).length
      omega
    · show (((shiftRight (growIfFull l).arr i (growIfFull l).n).set i x).set
        ((growIfFull l).n + 1) none).getD ((growIfFull l).n + 1) none = none
      exact getD_set_eq _ _ _
        (by rw [List.length_set, length_shiftRight, hglen]; omega)

lemma wf_remove_at {α : Type} {l : ArrayList α} (h : WF l) (i : Nat) :
    WF (remove_at l i).1 := by
  obtain ⟨hlen, hn, hsent⟩ := h
  by_cases hi : i ≥ l.n
  · rw [remove_at_of_ge hi]
    exact ⟨hlen, hn, hsent⟩
  · rw [remove_at_of_lt hi]
    refine ⟨?_, by show l.n - 1 ≤ l.length; omega, ?_⟩
    · show ((shiftLeft l.arr i l.n).set _ none).length = l.length + 1
      rw [List.length_set, length_shiftLeft, hlen]
    · show ((shiftLeft l.arr i l.n).set (l.n - 1) none).getD (l.n - 1) none = none
      exact getD_set_eq _ _ _ (by rw [length_shiftLeft]; omega)

lemma wf_shrink_to_fit {α : Type} {l : ArrayList α} (h : WF l) : WF (shrink_to_fit l) := by
  obtain ⟨hlen, hn, hsent⟩ := h
  by_cases hf : l.n = l.length
  · rw [shrink_to_fit_of_eq hf]
    exact ⟨hlen, hn, hsent⟩
  · rw [shrink_to_fit_of_ne hf]
    refine ⟨by show (reallocBuf l.arr (l.n + 1)).length = l.n + 1; rw [length_reallocBuf],
            by show l.n ≤ l.n; omega, ?_⟩
    show (reallocBuf l.arr (l.n + 1)).getD l.n none = none
    rw [getD_reallocBuf _ (by omega)]
    exact hsent

lemma wf_applyOp {α : Type} {l : ArrayList α} (h : WF l) (op : Op α) :
    WF (applyOp l op).1 := by
  cases op with
  | push_back x => exact wf_push_back h x
  | pop_back => exact wf_pop_back h
  | insert_at x i => exact wf_insert_at h x i
  | remove_at i => exact wf_remove_at h i
  | resize c => exact wf_resize h c
  | shrink_to_fit => exact wf_shrink_to_fit h

lemma wf_run {α : Type} {l : ArrayList α} (h : WF l) (ops : List (Op α)) :
    WF (run l ops) := by
  induction ops generalizing l with
  | nil => exact h
  | cons op ops ih =>
      have hstep := wf_applyOp h op
      simp only [run]
      rcases hop : applyOp l op with ⟨l2, e⟩
      rw [hop] at hstep
      cases e with
      | none => exact ih hstep
      | some e0 =>
          by_cases hfat : isFatal e0
          · simpa [hfat] using hstep
          · simpa [hfat] using ih hstep

lemma growIfFull_n {α : Type} (l : ArrayList α) : (growIfFull l).n = l.n := by
  by_cases hf : l.n = l.length
  · rw [growIfFull_of_full hf]
  · rw [growIfFull_of_free hf]

lemma growIfFull_getD {α : Type} (l : ArrayList α) {j : Nat} (hj : j ≤ l.n) :
    (growIfFull l).arr.getD j none = l.arr.getD j none := by
  by_cases hf : l.n = l.length
  · rw [growIfFull_of_full hf]
    show (reallocBuf l.arr (l.length * 2 + 1 + 1)).getD j none = l.arr.getD j none
    exact getD_reallocBuf _ (by omega)
  · rw [growIfFull_of_free hf]

/-! ### The find loop -/

lemma findLoop_stop {α : Type} (arr : List (Option α)) (x : Option α)
    (cmp : Option α → Option α → Int) {n i : Nat} (h : ¬ i < n) :
    findLoop arr x cmp n i = -1 := by
  unfold findLoop
  rw [dif_neg h]

lemma findLoop_hit {α : Type} (arr : List (Option α)) (x : Option α)
    (cmp : Option α → Option α → Int) {n i : Nat} (h : i < n)
    (hc : cmp (arr.getD i none) x = 0) :
    findLoop arr x cmp n i = (i : Int) := by
  unfold findLoop
  rw [dif_pos h, if_pos hc]

lemma findLoop_miss {α : Type} (arr : List (Option α)) (x : Option α)
    (cmp : Option α → Option α → Int) {n i : Nat} (h : i < n)
    (hc : ¬ cmp (arr.getD i none) x = 0) :
    findLoop arr x cmp n i = findLoop arr x cmp n (i + 1) := by
  conv_lhs => unfold findLoop
  rw [dif_pos h, if_neg hc]

lemma findLoop_out {α : Type} (arr : List (Option α)) (x : Option α)
    (cmp : Option α → Option α → Int) {n i : Nat} (hni : ¬ i < n) :
    (findLoop arr x cmp n i = -1 ↔
      ∀ j, i ≤ j → j < n → cmp (arr.getD j none) x ≠ 0) ∧
    (∀ k : Nat, findLoop arr x cmp n i = (k : Int) →
      i ≤ k ∧ k < n ∧ cmp (arr.getD k none) x = 0 ∧
        ∀ j, i ≤ j → j < k → cmp (arr.getD j none) x ≠ 0) := by
  rw [findLoop_stop arr x cmp hni]
  refine ⟨⟨fun _ j hij hjn => absurd hjn (by omega), fun _ => rfl⟩, ?_⟩
  intro k hk
  exact absurd hk (by omega)

lemma findLoop_spec {α : Type} (arr : List (Option α)) (x : Option α)
    (cmp : Option α → Option α → Int) (n : Nat) : ∀ i,
    (findLoop arr x cmp n i = -1 ↔
      ∀ j, i ≤ j → j < n → cmp (arr.getD j none) x ≠ 0) ∧
    (∀ k : Nat, findLoop arr x cmp n i = (k : Int) →
      i ≤ k ∧ k < n ∧ cmp (arr.getD k none) x = 0 ∧
        ∀ j, i ≤ j → j < k → cmp (arr.getD j none) x ≠ 0) := by
  have main : ∀ m i, n - i ≤ m →
      (findLoop arr x cmp n i = -1 ↔
        ∀ j, i ≤ j → j < n → cmp (arr.getD j none) x ≠ 0) ∧
      (∀ k : Nat, findLoop arr x cmp n i = (k : Int) →
        i ≤ k ∧ k < n ∧ cmp (arr.getD k none) x = 0 ∧
          ∀ j, i ≤ j → j < k → cmp (arr.getD j none) x ≠ 0) := by
    intro m
    induction m with
    | zero =>
        intro i hi
        exact findLoop_out arr x cmp (by omega)
    | succ m ih =>
        intro i hi
        by_cases hlt : i < n
        · by_cases hc : cmp (arr.getD i none) x = 0
          · rw [findLoop_hit arr x cmp hlt hc]
            constructor
            · constructor
              · intro habs
                exact absurd habs (by omega)
              · intro hall
                exact absurd hc (hall i le_rfl hlt)
            · intro k hk
              have hik : k = i := by omega
              subst hik
              exact ⟨le_rfl, hlt, hc, fun j hij hjk => absurd hij (by omega)⟩
          · rw [findLoop_miss arr x cmp hlt hc]
            obtain ⟨ih1, ih2⟩ := ih (i + 1) (by omega)
            constructor
            · rw [ih1]
              constructor
              · intro hall j hij hjn
                rcases Nat.eq_or_lt_of_le hij with heq | hlt2
                · rw [← heq]
                  exact hc
                · exact hall j (by omega) hjn
              · intro hall j hij hjn
                exact hall j (by omega) hjn
            · intro k hk
              obtain ⟨h1, h2, h3, h4⟩ := ih2 k hk
              refine ⟨by omega, h2, h3, ?_⟩
              intro j hij hjk
              rcases Nat.eq_or_lt_of_le hij with heq | hlt2
              · rw [← heq]
                exact hc
              · exact h4 j (by omega) hjk
        · exact findLoop_out arr x cmp hlt
  intro i
  exact main (n - i) i le_rfl

/-! ### The claims -/

/-- C1: for every reachable container state — `init` with any starting
capacity followed by any sequence of operations (push_back, pop_back,
insert_at, remove_at, resize, shrink_to_fit) — the invariant
`count <= capacity` (here `n <= length`) holds after every call. -/
theorem count_le_capacity_invariant (α : Type) (s : Nat) (ops : List (Op α)) :
    (run (init α s) ops).n ≤ (run (init α s) ops).length :=
  (wf_run (wf_init α s) ops).2.1

/-- C10: in every reachable container state the backing buffer holds one
slot beyond the capacity (`length + 1` slots), and the slot at index
`count` holds the null handle — the null-terminator sentinel is
established by `init` and maintained by every mutating operation. -/
theorem null_terminator_invariant (α : Type) (s : Nat) (ops : List (Op α)) :
    (run (init α s) ops).arr.length = (run (init α s) ops).length + 1 ∧
    (run (init α s) ops).arr.getD (run (init α s) ops).n none = none :=
  ⟨(wf_run (wf_init α s) ops).1, (wf_run (wf_init α s) ops).2.2⟩

/-- C5: on a non-empty container `pop_back` removes the element at index
`count - 1` — the count decrements by one, all other stored elements are
unchanged, and no error is reported; on an empty container it reports the
non-fatal `EmptyContainer` condition and leaves the container entirely
unchanged. -/
theorem pop_back_spec {α : Type} (l : ArrayList α) :
    (l.n = 0 → pop_back l = (l, some Err.EmptyContainer)) ∧
    (0 < l.n →
      (pop_back l).2 = none ∧
      (pop_back l).1.n = l.n - 1 ∧
      (pop_back l).1.length = l.length ∧
      ∀ j, j < l.n - 1 → (pop_back l).1.arr.getD j none = l.arr.getD j none) := by
  refine ⟨fun h => pop_back_of_zero h, fun h => ?_⟩
  rw [pop_back_of_pos (by omega)]
  exact ⟨rfl, rfl, rfl, fun j hj => getD_set_ne _ _ _ (by omega)⟩

/-- Evaluation of `pop_back_spec` on concrete containers: the empty
container of capacity 2 reports `EmptyContainer` with size still 0, and
popping `sample2` drops its count to 1 keeping element 0. -/
theorem pop_back_spec_witness :
    pop_back (init Nat 2) = (init Nat 2, some Err.EmptyContainer) ∧
    (pop_back sample2).2 = none ∧
    (pop_back sample2).1.n = sample2.n - 1 ∧
    (pop_back sample2).1.arr.getD 0 none = sample2.arr.getD 0 none :=
  ⟨(pop_back_spec (init Nat 2)).1 (by decide),
   ((pop_back_spec sample2).2 (by decide)).1,
   ((pop_back_spec sample2).2 (by decide)).2.1,
   ((pop_back_spec sample2).2 (by decide)).2.2.2 0 (by decide)⟩

/-- C7: `resize` is the identity (container entirely unchanged) when the
requested capacity is at most the count; otherwise it sets the capacity to
exactly the request, leaving count and all stored elements unchanged; in
particular it never shrinks capacity below the live count. -/
theorem resize_spec {α : Type} (l : ArrayList α) (c : Nat) :
    (c ≤ l.n → resize l c = l) ∧
    (l.n < c →
      (resize l c).length = c ∧ (resize l c).n = l.n ∧
      ∀ j, j < l.n → (resize l c).arr.getD j none = l.arr.getD j none) ∧
    (WF l → l.n ≤ (resize l c).length) := by
  refine ⟨fun h => resize_of_le h, fun h => ?_, fun hwf => ?_⟩
  · rw [resize_of_gt (by omega)]
    exact ⟨rfl, rfl, fun j hj => getD_reallocBuf _ (by omega)⟩
  · by_cases hc : c ≤ l.n
    · rw [resize_of_le hc]
      exact hwf.2.1
    · rw [resize_of_gt hc]
      show l.n ≤ c
      omega

/-- Evaluation of `resize_spec` on `sample2` (count 2): a request of 1 is
a no-op, a request of 6 sets capacity 6 keeping count and elements. -/
theorem resize_spec_witness :
    resize sample2 1 = sample2 ∧
    (resize sample2 6).length = 6 ∧
    (resize sample2 6).n = sample2.n ∧
    (resize sample2 6).arr.getD 1 none = sample2.arr.getD 1 none ∧
    sample2.n ≤ (resize sample2 6).length :=
  ⟨(resize_spec sample2 1).1 (by decide),
   ((resize_spec sample2 6).2.1 (by decide)).1,
   ((resize_spec sample2 6).2.1 (by decide)).2.1,
   ((resize_spec sample2 6).2.1 (by decide)).2.2 1 (by decide),
   (resize_spec sample2 6).2.2 ⟨by decide, by decide, by decide⟩⟩

/-- C8: `shrink_to_fit` reduces the capacity to exactly the count, leaving
count and all stored elements unchanged; it is a no-op when capacity
already equals count, and it is idempotent. -/
theorem shrink_to_fit_spec {α : Type} (l : ArrayList α) :
    (shrink_to_fit l).length = l.n ∧
    (shrink_to_fit l).n = l.n ∧
    (∀ j, j < l.n → (shrink_to_fit l).arr.getD j none = l.arr.getD j none) ∧
    (l.n = l.length → shrink_to_fit l = l) ∧
    shrink_to_fit (shrink_to_fit l) = shrink_to_fit l := by
  by_cases hf : l.n = l.length
  · rw [shrink_to_fit_of_eq hf]
    exact ⟨hf.symm, rfl, fun j _ => rfl, fun _ => rfl, shrink_to_fit_of_eq hf⟩
  · rw [shrink_to_fit_of_ne hf]
    refine ⟨rfl, rfl, ?_, fun hc => absurd hc hf, ?_⟩
    · intro j hj
      show (reallocBuf l.arr (l.n + 1)).getD j none = l.arr.getD j none
      exact getD_reallocBuf _ (by omega)
    · exact shrink_to_fit_of_eq rfl

/-- Evaluation of `shrink_to_fit_spec` on a container with count 1 and
capacity 5. -/
theorem shrink_to_fit_spec_witness :
    (shrink_to_fit (push_back (init Nat 5) (some 4))).length =
      (push_back (init Nat 5) (some 4)).n ∧
    (shrink_to_fit (push_back (init Nat 5) (some 4))).arr.getD 0 none =
      (push_back (init Nat 5) (some 4)).arr.getD 0 none ∧
    shrink_to_fit (shrink_to_fit (push_back (init Nat 5) (some 4))) =
      shrink_to_fit (push_back (init Nat 5) (some 4)) :=
  ⟨(shrink_to_fit_spec (push_back (init Nat 5) (some 4))).1,
   (shrink_to_fit_spec (push_back (init Nat 5) (some 4))).2.2.1 0 (by decide),
   (shrink_to_fit_spec (push_back (init Nat 5) (some 4))).2.2.2.2⟩

/-- C9: `push_back x` immediately followed by `pop_back` restores the
count and every stored element at indices `[0, count)` to their values
before the push, and the pop reports no error. -/
theorem push_pop_roundtrip {α : Type} (l : ArrayList α) (x : Option α) :
    (pop_back (push_back l x)).1.n = l.n ∧
    (pop_back (push_back l x)).2 = none ∧
    ∀ j, j < l.n → (pop_back (push_back l x)).1.arr.getD j none = l.arr.getD j none := by
  have h1 : (push_back l x).n = (growIfFull l).n + 1 := rfl
  have h2 : (push_back l x).arr =
      ((growIfFull l).arr.set (growIfFull l).n x).set ((growIfFull l).n + 1) none := rfl
  have hpos : ¬ (push_back l x).n = 0 := by
    rw [h1]
    omega
  rw [pop_back_of_pos hpos]
  have hgn := growIfFull_n l
  refine ⟨?_, rfl, ?_⟩
  · show (push_back l x).n - 1 = l.n
    rw [h1, hgn]
    omega
  · intro j hj
    show ((push_back l x).arr.set ((push_back l x).n - 1) none).getD j none =
      l.arr.getD j none
    rw [h1, Nat.add_sub_cancel, h2, hgn]
    rw [getD_set_ne _ _ _ (by omega), getD_set_ne _ _ _ (by omega),
        getD_set_ne _ _ _ (by omega)]
    exact growIfFull_getD l (by omega)

/-- Evaluation of `push_pop_roundtrip` on `sample2` (which is full, so the
push also exercises the growth path). -/
theorem push_pop_roundtrip_witness :
    (pop_back (push_back sample2 (some 9))).1.n = sample2.n ∧
    (pop_back (push_back sample2 (some 9))).2 = none ∧
    (pop_back (push_back sample2 (some 9))).1.arr.getD 1 none =
      sample2.arr.getD 1 none :=
  ⟨(push_pop_roundtrip sample2 (some 9)).1,
   (push_pop_roundtrip sample2 (some 9)).2.1,
   (push_pop_roundtrip sample2 (some 9)).2.2 1 (by decide)⟩

/-- C2: on a full container (`count == capacity`) `push_back` first grows
the capacity to exactly `2 * capacity + 1`, then stores the element at the
old count and increments the count — so the append succeeds and the
capacity strictly increases whenever it is exhausted; `insert_at` with a
valid index performs the same growth. -/
theorem growth_spec {α : Type} (l : ArrayList α) (x : Option α) (i : Nat)
    (hfull : l.n = l.length) :
    (push_back l x).length = 2 * l.length + 1 ∧
    l.length < (push_back l x).length ∧
    (push_back l x).n = l.n + 1 ∧
    (push_back l x).arr.getD l.n none = x ∧
    (i ≤ l.n →
      (insert_at l x i).2 = none ∧
      (insert_at l x i).1.length = 2 * l.length + 1) := by
  have hg := growIfFull_of_full hfull
  refine ⟨?_, ?_, ?_, ?_, fun hi => ?_⟩
  · rw [push_back_eq, hg]
    show l.length * 2 + 1 = 2 * l.length + 1
    ring
  · rw [push_back_eq, hg]
    show l.length < l.length * 2 + 1
    omega
  · rw [push_back_eq, hg]
  · rw [push_back_eq, hg]
    show (((reallocBuf l.arr (l.length * 2 + 1 + 1)).set l.n x).set (l.n + 1) none).getD
      l.n none = x
    rw [getD_set_ne _ _ _ (by omega)]
    exact getD_set_eq _ _ _ (by rw [length_reallocBuf]; omega)
  · rw [insert_at_of_le x (by omega), hg]
    refine ⟨rfl, ?_⟩
    show l.length * 2 + 1 = 2 * l.length + 1
    ring

/-- Evaluation of `growth_spec` on `sample2`, which is exactly full with
count = capacity = 2: the push grows capacity to 5 and stores the element
at index 2, and `insert_at` at 0 also grows capacity to 5. -/
theorem growth_spec_witness :
    (push_back sample2 (some 7)).length = 2 * sample2.length + 1 ∧
    sample2.length < (push_back sample2 (some 7)).length ∧
    (push_back sample2 (some 7)).arr.getD sample2.n none = some 7 ∧
    (insert_at sample2 (some 7) 0).1.length = 2 * sample2.length + 1 :=
  ⟨(growth_spec sample2 (some 7) 0 (by decide)).1,
   (growth_spec sample2 (some 7) 0 (by decide)).2.1,
   (growth_spec sample2 (some 7) 0 (by decide)).2.2.2.1,
   ((growth_spec sample2 (some 7) 0 (by decide)).2.2.2.2 (by decide)).2⟩

/-- C3: for a well-formed container, `insert_at` with `index <= count`
shifts the elements at `[index, count)` one slot to the right preserving
their relative order, writes the new element at `index`, and increments
the count (index = count appends); with `index > count` it reports
`IndexOutOfRange` with the count, capacity and elements of the container left
unchanged. -/
theorem insert_at_spec {α : Type} (l : ArrayList α) (x : Option α) (i : Nat)
    (hwf : WF l) :
    (i ≤ l.n →
      (insert_at l x i).2 = none ∧
      (insert_at l x i).1.n = l.n + 1 ∧
      (insert_at l x i).1.arr.getD i none = x ∧
      (∀ j, j < i → (insert_at l x i).1.arr.getD j none = l.arr.getD j none) ∧
      (∀ j, i ≤ j → j < l.n →
        (insert_at l x i).1.arr.getD (j + 1) none = l.arr.getD j none)) ∧
    (l.n < i → insert_at l x i = (l, some Err.IndexOutOfRange)) := by
  obtain ⟨hlen, hn, hsent⟩ := hwf
  refine ⟨fun hle => ?_, fun hgt => insert_at_of_gt x hgt⟩
  obtain ⟨hgn, hgle, hglen, hgpre⟩ := growIfFull_spec hlen hn
  rw [insert_at_of_le x (by omega)]
  refine ⟨rfl, ?_, ?_, ?_, ?_⟩
  · show (growIfFull l).n + 1 = l.n + 1
    rw [hgn]
  · show (((shiftRight (growIfFull l).arr i (growIfFull l).n).set i x).set
      ((growIfFull l).n + 1) none).getD i none = x
    rw [getD_set_ne _ _ _ (by omega)]
    exact getD_set_eq _ _ _ (by rw [length_shiftRight, hglen]; omega)
  · intro j hj
    show (((shiftRight (growIfFull l).arr i (growIfFull l).n).set i x).set
      ((growIfFull l).n + 1) none).getD j none = l.arr.getD j none
    rw [getD_set_ne _ _ _ (by omega), getD_set_ne _ _ _ (by omega)]
    rw [getD_shiftRight _ _ _ (by rw [hglen]; omega), if_neg (by omega)]
    exact hgpre j (by omega)
  · intro j hij hjn
    show (((shiftRight (growIfFull l).arr i (growIfFull l).n).set i x).set
      ((growIfFull l).n + 1) none).getD (j + 1) none = l.arr.getD j none
    rw [getD_set_ne _ _ _ (by omega), getD_set_ne _ _ _ (by omega)]
    rw [getD_shiftRight _ _ _ (by rw [hglen]; omega), if_pos (by omega),
        Nat.add_sub_cancel]
    exact hgpre j (by omega)

/-- Evaluation of `insert_at_spec`: inserting `some 9` at index 1 of the
full container `sample2` succeeds (count 3, element 0 kept, old element 1
moved to index 2), and inserting at index 3 > count reports
`IndexOutOfRange` leaving the container unchanged. -/
theorem insert_at_spec_witness :
    (insert_at sample2 (some 9) 1).2 = none ∧
    (insert_at sample2 (some 9) 1).1.n = sample2.n + 1 ∧
    (insert_at sample2 (some 9) 1).1.arr.getD 1 none = some 9 ∧
    (insert_at sample2 (some 9) 1).1.arr.getD 0 none = sample2.arr.getD 0 none ∧
    (insert_at sample2 (some 9) 1).1.arr.getD 2 none = sample2.arr.getD 1 none ∧
    insert_at sample2 (some 9) 3 = (sample2, some Err.IndexOutOfRange) :=
  ⟨((insert_at_spec sample2 (some 9) 1 ⟨by decide, by decide, by decide⟩).1
      (by decide)).1,
   ((insert_at_spec sample2 (some 9) 1 ⟨by decide, by decide, by decide⟩).1
      (by decide)).2.1,
   ((insert_at_spec sample2 (some 9) 1 ⟨by decide, by decide, by decide⟩).1
      (by decide)).2.2.1,
   ((insert_at_spec sample2 (some 9) 1 ⟨by decide, by decide, by decide⟩).1
      (by decide)).2.2.2.1 0 (by decide),
   ((insert_at_spec sample2 (some 9) 1 ⟨by decide, by decide, by decide⟩).1
      (by decide)).2.2.2.2 1 (by decide) (by decide),
   (insert_at_spec sample2 (some 9) 3 ⟨by decide, by decide, by decide⟩).2
      (by decide)⟩

/-- C4: for a well-formed container, `remove_at` with `index < count`
shifts the elements at `(index, count)` one slot to the left — preserving
the relative order of all elements other than the removed one — and
decrements the count; with `index >= count` it reports `IndexOutOfRange`
and leaves the container unchanged. -/
theorem remove_at_spec {α : Type} (l : ArrayList α) (i : Nat) (hwf : WF l) :
    (i < l.n →
      (remove_at l i).2 = none ∧
      (remove_at l i).1.n = l.n - 1 ∧
      (remove_at l i).1.length = l.length ∧
      (∀ j, j < i → (remove_at l i).1.arr.getD j none = l.arr.getD j none) ∧
      (∀ j, i ≤ j → j + 1 < l.n →
        (remove_at l i).1.arr.getD j none = l.arr.getD (j + 1) none)) ∧
    (l.n ≤ i → remove_at l i = (l, some Err.IndexOutOfRange)) := by
  obtain ⟨hlen, hn, hsent⟩ := hwf
  refine ⟨fun hlt => ?_, fun hge => remove_at_of_ge hge⟩
  rw [remove_at_of_lt (by omega)]
  refine ⟨rfl, rfl, rfl, ?_, ?_⟩
  · intro j hj
    show ((shiftLeft l.arr i l.n).set (l.n - 1) none).getD j none = l.arr.getD j none
    rw [getD_set_ne _ _ _ (by omega)]
    rw [getD_shiftLeft _ _ _ (by omega), if_neg (by omega)]
  · intro j hij hjn
    show ((shiftLeft l.arr i l.n).set (l.n - 1) none).getD j none =
      l.arr.getD (j + 1) none
    rw [getD_set_ne _ _ _ (by omega)]
    rw [getD_shiftLeft _ _ _ (by omega), if_pos (by omega)]

/-- Evaluation of `remove_at_spec`: removing index 0 from `sample2` drops
the count to 1 and moves the old element 1 down to index 0, and removing
index 2 >= count reports `IndexOutOfRange` leaving the container
unchanged. -/
theorem remove_at_spec_witness :
    (remove_at sample2 0).2 = none ∧
    (remove_at sample2 0).1.n = sample2.n - 1 ∧
    (remove_at sample2 0).1.arr.getD 0 none = sample2.arr.getD 1 none ∧
    remove_at sample2 2 = (sample2, some Err.IndexOutOfRange) :=
  ⟨((remove_at_spec sample2 0 ⟨by decide, by decide, by decide⟩).1 (by decide)).1,
   ((remove_at_spec sample2 0 ⟨by decide, by decide, by decide⟩).1 (by decide)).2.1,
   ((remove_at_spec sample2 0 ⟨by decide, by decide, by decide⟩).1
      (by decide)).2.2.2.2 0 (by decide) (by decide),
   (remove_at_spec sample2 2 ⟨by decide, by decide, by decide⟩).2 (by decide)⟩

/-- C6: `find` scans the indices `[0, count)` in increasing order and
returns the lowest index whose stored element the caller-supplied
comparator relates to the target (comparator result 0); it returns -1
when no such index exists, including on an empty container. -/
theorem find_spec {α : Type} (l : ArrayList α) (x : Option α)
    (cmp : Option α → Option α → Int) :
    (find l x cmp = -1 ↔ ∀ i, i < l.n → cmp (l.arr.getD i none) x ≠ 0) ∧
    (∀ k : Nat, find l x cmp = (k : Int) →
      k < l.n ∧ cmp (l.arr.getD k none) x = 0 ∧
        ∀ j, j < k → cmp (l.arr.getD j none) x ≠ 0) := by
  obtain ⟨h1, h2⟩ := findLoop_spec l.arr x cmp l.n 0
  constructor
  · rw [show find l x cmp = findLoop l.arr x cmp l.n 0 from rfl, h1]
    constructor
    · intro hall i hin
      exact hall i (by omega) hin
    · intro hall j _ hjn
      exact hall j hjn
  · intro k hk
    obtain ⟨_, hkn, hck, hmin⟩ := h2 k hk
    exact ⟨hkn, hck, fun j hjk => hmin j (by omega) hjk⟩

/-- Evaluation of `find_spec`: on `sample2` (elements `some 1`, `some 2`)
the comparator hit for `some 2` is at index 1 and index 0 is not a hit;
on the empty container every target yields -1. -/
theorem find_spec_witness :
    ((1 : Nat) < sample2.n ∧ cmpSome (sample2.arr.getD 1 none) (some 2) = 0 ∧
      cmpSome (sample2.arr.getD 0 none) (some 2) ≠ 0) ∧
    find (init Nat 3) (some 2) cmpSome = -1 := by
  have hfind : find sample2 (some 2) cmpSome = ((1 : Nat) : Int) := by
    show findLoop sample2.arr (some 2) cmpSome sample2.n 0 = ((1 : Nat) : Int)
    rw [findLoop_miss _ _ _ (by decide) (by decide),
        findLoop_hit _ _ _ (by decide) (by decide)]
  exact ⟨⟨((find_spec sample2 (some 2) cmpSome).2 1 hfind).1,
    ((find_spec sample2 (some 2) cmpSome).2 1 hfind).2.1,
    ((find_spec sample2 (some 2) cmpSome).2 1 hfind).2.2 0 (by decide)⟩,
   (find_spec (init Nat 3) (some 2) cmpSome).1.mpr
     (fun i hi => absurd (show i < 0 from hi) (by omega))⟩

end ArrayListC
